import Mathlib

/-!
Verification development for the ACCR-Replace text-matching library.

The repository contains two parallel implementations of each component:

* a "simplified" set: the substring-search `ACAutomaton`
  (`src/ACCR_Replace/ac_automaton.pyx`, first document), the `re`-backed
  `RegexEngine` (`src/unnamed/part_003`), the append-and-grow `StreamBuffer`
  (`src/ACCR_Replace/buffer.pyx`) and the `Matcher` of `src/unnamed/part_001`;
* a "full" set: the trie/failure-link `ACAutomaton` and the circular
  `StreamBuffer` (`src/ACCR_Replace/ac_automaton.pyx`, later documents),
  the `RegexEngine` of `src/ACCR_Replace/regex_engine.pyx` and the `Matcher`
  of `src/fastmatcher/matcher.pyx`.

Both sets are embedded below.  Byte strings are modelled as `List Nat`
(byte values); Python dictionaries holding match data become structures;
a Python `raise` becomes an `Except.error` result paired with the unchanged
receiver state; Python's `re` module (external to the repository) is
modelled as an abstract compile/finditer oracle.
-/

namespace ACCR

/-- Byte strings (Python `bytes` / `char*` regions) as lists of byte values. -/
abbrev Bytes := List Nat

/-! ## Simplified AC automaton (`src/ACCR_Replace/ac_automaton.pyx`, lines 11-59) -/

/-- One entry of the list returned by the simplified `ACAutomaton.search`:
the dict `{'pattern': ..., 'start': ..., 'end': ...}`.  The field `mstop`
stands for the dict key `end` (a Lean keyword). -/
structure ACMatch where
  pattern : Bytes
  mstart : Nat
  mstop : Nat
  deriving DecidableEq, Repr

/-- The simplified `ACAutomaton`: it stores the pattern list and a built flag.
Patterns are identified with their byte sequences; the source stores Python
`str` values and compares their UTF-8 bytes, which coincides with this model
whenever each character is one byte (the source's `pattern_len = len(pattern)`
counts characters, so for multi-byte characters the source itself compares
only a prefix of the encoded bytes). -/
structure ACAutomatonS where
  patterns : List Bytes
  built : Bool
  deriving DecidableEq, Repr

/-- `ACAutomaton.__cinit__`: empty pattern list, not built. -/
def ACAutomatonS.cinit : ACAutomatonS := ⟨[], false⟩

/-- `ACAutomaton.build(patterns)`. -/
def ACAutomatonS.build (_a : ACAutomatonS) (ps : List Bytes) : ACAutomatonS :=
  ⟨ps, true⟩

/-- The two inner loops of the simplified `search` for one pattern: the `j`
loop over candidate starts and the `k` byte-comparison loop (with its
`match_found` early exit, equivalent to `List.all`).  The source computes the
loop bound `actual_len - pattern_len + 1` in unsigned 32-bit arithmetic; that
expression underflows when `pattern_len` exceeds `actual_len + 1`, after
which the source reads past the end of `text` (undefined behaviour).  The
embedding uses truncated natural subtraction `actual_len + 1 - pattern_len`,
which agrees with the source wherever the source's behaviour is defined
(`pattern_len ≤ actual_len + 1`). -/
def patOccs (text : Bytes) (alen : Nat) (p : Bytes) : List ACMatch :=
  (List.range (alen + 1 - p.length)).filterMap (fun j =>
    if (List.range p.length).all (fun k => text.getD (j + k) 0 == p.getD k 0)
    then some ⟨p, j, j + p.length⟩
    else none)

/-- Simplified `ACAutomaton.search(text, text_len=0)`: returns `[]` when not
built, otherwise scans every pattern at every start position, in pattern
order (the enumeration index `i` is unused by the source). -/
def ACAutomatonS.search (a : ACAutomatonS) (text : Bytes) (textLen : Nat) :
    List ACMatch :=
  if a.built = false then []
  else
    let alen := if textLen > 0 then textLen else text.length
    a.patterns.flatMap (fun p => patOccs text alen p)

/-- Simplified `ACAutomaton.get_node_count`. -/
def ACAutomatonS.get_node_count (a : ACAutomatonS) : Nat := a.patterns.length

/-! ## Regex oracle

The repository delegates regex compilation and matching to Python's `re`
module, which is external to the repository.  It is modelled as an abstract
oracle: `compile` either yields a compiled pattern (a finditer function
together with its source string, as `re.compile` objects carry `.pattern`)
or an error message (`re.error`). -/

/-- A compiled regex object: its source string (`.pattern`) and its
`finditer` enumeration, yielding `(start, end, group)` triples over a byte
text (the sources decode the bytes to `str` before matching; the decode step
is folded into `find`). -/
structure Compiled where
  pattern : String
  find : Bytes → List (Nat × Nat × String)

/-- The `re`-module oracle: `re.compile`, raising `re.error` on invalid
patterns, modelled as an `Except`. -/
structure ReOracle where
  compile : String → Except String Compiled

/-- One entry of a regex match list: the dict
`{'pattern': ..., 'start': ..., 'end': ..., 'matched': ...}`. -/
structure RegexMatch where
  pattern : String
  mstart : Nat
  mstop : Nat
  matched : String
  deriving DecidableEq, Repr

/-! ## Simplified regex engine (`src/unnamed/part_003`) -/

/-- The simplified `RegexEngine`. -/
structure RegexEngineS where
  patterns : List String
  compiled_patterns : List Compiled
  built : Bool

/-- Simplified `RegexEngine.__cinit__`. -/
def RegexEngineS.cinit : RegexEngineS := ⟨[], [], false⟩

/-- Simplified `RegexEngine.build(patterns)`: each pattern is compiled inside
`try ... except re.error: pass`, so patterns that fail to compile are skipped
silently and the build always completes with `built = True`. -/
def RegexEngineS.build (o : ReOracle) (_e : RegexEngineS) (ps : List String) :
    RegexEngineS :=
  { patterns := ps
    compiled_patterns := ps.filterMap (fun p => (o.compile p).toOption)
    built := true }

/-- Simplified `RegexEngine.match(text, text_len=0)` (the `text_len` argument
is unused by the source): finditer of every compiled pattern over the text,
in compiled order. -/
def RegexEngineS.matchText (e : RegexEngineS) (text : Bytes) : List RegexMatch :=
  if e.built = false then []
  else
    e.compiled_patterns.flatMap (fun c =>
      (c.find text).map (fun r => ⟨c.pattern, r.1, r.2.1, r.2.2⟩))

/-! ## Simplified stream buffer (`src/ACCR_Replace/buffer.pyx`) -/

/-- The simplified append-and-grow `StreamBuffer`. -/
structure StreamBufferS where
  buffer : Bytes
  position : Nat
  deriving DecidableEq, Repr

/-- Simplified `StreamBuffer.__cinit__`. -/
def StreamBufferS.cinit : StreamBufferS := ⟨[], 0⟩

/-- Simplified `StreamBuffer.reset`. -/
def StreamBufferS.resetB (_b : StreamBufferS) : StreamBufferS := ⟨[], 0⟩

/-- Simplified `StreamBuffer.append(data)`. -/
def StreamBufferS.append (b : StreamBufferS) (d : Bytes) : StreamBufferS :=
  ⟨b.buffer ++ d, b.position⟩

/-- Simplified `StreamBuffer.get_size`. -/
def StreamBufferS.get_size (b : StreamBufferS) : Nat := b.buffer.length

/-! ## Combined match records

`Matcher._combine_matches` (`src/unnamed/part_001`) tags AC results with
`'type': 'ac'` and regex results with `'type': 'regex'` (the latter keep the
`'matched'` text). -/

/-- A combined match record as produced by `_combine_matches`. -/
inductive MRecord where
  | lit : Bytes → Nat → Nat → MRecord
  | rex : String → Nat → Nat → String → MRecord
  deriving DecidableEq, Repr

/-- The `'start'` offset of a record. -/
def MRecord.mstart : MRecord → Nat
  | .lit _ s _ => s
  | .rex _ s _ _ => s

/-- The `'end'` offset of a record. -/
def MRecord.mstop : MRecord → Nat
  | .lit _ _ e => e
  | .rex _ _ e _ => e

/-- Kind order used by the spec's ordering key: literal (`'ac'`) records rank
before regex records. -/
def MRecord.kindOrder : MRecord → Nat
  | .lit _ _ _ => 0
  | .rex _ _ _ _ => 1

/-! ## The `src/unnamed/part_001` Matcher -/

namespace PM

/-- The `Matcher` of `src/unnamed/part_001`: AC automaton, regex engine and
stream buffer are nullable (`Option`). -/
structure Matcher where
  ac_patterns : List Bytes
  regex_patterns : List String
  streaming_mode : Bool
  total_matches : Nat
  ac_automaton : Option ACAutomatonS
  regex_engine : Option RegexEngineS
  stream_buffer : Option StreamBufferS

/-- `Matcher.build(patterns, regex)`: replaces the stored pattern lists when
arguments are given (`is not None`), then re-creates each engine whenever its
pattern list is non-empty (Python truthiness), and creates the stream buffer
when in streaming mode and none exists yet. -/
def Matcher.build (o : ReOracle) (m : Matcher) (patterns : Option (List Bytes))
    (regex : Option (List String)) : Matcher :=
  let m := match patterns with
    | some ps => { m with ac_patterns := ps }
    | none => m
  let m := match regex with
    | some rs => { m with regex_patterns := rs }
    | none => m
  let m := if !m.ac_patterns.isEmpty then
      { m with ac_automaton := some (ACAutomatonS.cinit.build m.ac_patterns) }
    else m
  let m := if !m.regex_patterns.isEmpty then
      { m with regex_engine := some (RegexEngineS.cinit.build o m.regex_patterns) }
    else m
  if m.streaming_mode && m.stream_buffer.isNone then
    { m with stream_buffer := some StreamBufferS.cinit }
  else m

/-- `Matcher.__cinit__(patterns, regex, streaming)`: stores the lists, zeroes
the counter and calls `build` on them. -/
def Matcher.cinit (o : ReOracle) (patterns : List Bytes) (regex : List String)
    (streaming : Bool) : Matcher :=
  Matcher.build o
    { ac_patterns := patterns
      regex_patterns := regex
      streaming_mode := streaming
      total_matches := 0
      ac_automaton := none
      regex_engine := none
      stream_buffer := none }
    (some patterns) (some regex)

/-- `Matcher._combine_matches(ac_matches, regex_matches)`: AC records first
(tagged `'ac'`), then regex records (tagged `'regex'`), no re-ordering. -/
def combine_matches (acM : List ACMatch) (reM : List RegexMatch) :
    List MRecord :=
  acM.map (fun r => MRecord.lit r.pattern r.mstart r.mstop)
    ++ reM.map (fun r => MRecord.rex r.pattern r.mstart r.mstop r.matched)

/-- `Matcher._process_chunk(chunk, chunk_len)`: run the AC automaton and the
regex engine (each only if present) over the chunk, then combine. -/
def process_chunk (ac : Option ACAutomatonS) (re : Option RegexEngineS)
    (chunk : Bytes) : List MRecord :=
  let acMatches := match ac with
    | some a => a.search chunk chunk.length
    | none => []
  let reMatches := match re with
    | some e => e.matchText chunk
    | none => []
  combine_matches acMatches reMatches

/-- `Matcher.match(text)`: processes the whole text as one chunk and adds the
match count to `total_matches`.  The method has no failure path, hence the
result is always `Except.ok`. -/
def Matcher.matchText (m : Matcher) (text : Bytes) :
    Except String (List MRecord) × Matcher :=
  let ms := process_chunk m.ac_automaton m.regex_engine text
  (Except.ok ms, { m with total_matches := m.total_matches + ms.length })

/-- `Matcher.feed(chunk)`: raises `RuntimeError` when streaming mode is off
(modelled as `Except.error` with the receiver state unchanged, since the
`raise` happens before any mutation); otherwise processes the chunk exactly
like `match` does.  Note the feed path neither writes to nor reads from the
stream buffer. -/
def Matcher.feed (m : Matcher) (chunk : Bytes) :
    Except String (List MRecord) × Matcher :=
  if m.streaming_mode = false then
    (Except.error "feed() can only be used in streaming mode", m)
  else
    let ms := process_chunk m.ac_automaton m.regex_engine chunk
    (Except.ok ms,
      { m with total_matches := m.total_matches + ms.length })

/-- `Matcher.reset()`: zero `total_matches` and reset the stream buffer when
one exists; the engines are untouched. -/
def Matcher.resetM (m : Matcher) : Matcher :=
  { m with total_matches := 0
           stream_buffer := m.stream_buffer.map StreamBufferS.resetB }

end PM

/-- A `ReOracle` that rejects every pattern; used to instantiate matchers
built without regex patterns (the oracle is then never consulted). -/
def noOracle : ReOracle := ⟨fun _ => Except.error "unused"⟩

/-- `Except.isError` helper (Lean core only provides `isOk` on some
versions). -/
def exceptIsError : Except String (List MRecord) → Bool
  | .error _ => true
  | .ok _ => false


/-! ## Full AC automaton (`src/ACCR_Replace/ac_automaton.pyx`, second document)

Nodes live in an array indexed by creation order (the C code uses heap
pointers; indices play the role of `ACNode*`, with the root at index 0).
`fail = none` models a NULL failure pointer.  The source's BFS loops
(`_build_failure_links`, `_collect_outputs`) and the failure-chasing `while`
loops are re-expressed with an explicit fuel bound, since the C loops have no
syntactic termination measure (indeed `_collect_outputs` re-enqueues the root
through the root's self-pointing child entries and need not terminate); the
fuel never changes the node table in a way `_search` can observe, because the
match-collection branches of the source are `pass` stubs. -/

namespace ACF

/-- `ACNode`: child table (byte value to node index), failure link, output
set (pattern ids), final flag and the edge character. -/
structure ACNode where
  children : Nat → Option Nat
  fail : Option Nat
  output : List Nat
  is_final : Bool
  character : Nat

/-- `_create_node` (fields zeroed, no children, NULL fail). -/
def ACNode.fresh (c : Nat) : ACNode :=
  { children := fun _ => none, fail := none, output := [], is_final := false
    character := c }

/-- Node lookup; out-of-range indices yield a blank node (never reached on
indices produced by the build). -/
def getN (ns : Array ACNode) (i : Nat) : ACNode := ns.getD i (ACNode.fresh 0)

/-- Node update (no-op when out of range, like the lookup). -/
def setN (ns : Array ACNode) (i : Nat) (v : ACNode) : Array ACNode :=
  ns.setD i v

/-- The trie-insertion walk of `_build_goto` for one pattern: follow or
create the child edge for each byte, then set `is_final` on the last node. -/
def insertFrom (ns : Array ACNode) (cur : Nat) : Bytes → Array ACNode
  | [] => setN ns cur { getN ns cur with is_final := true }
  | c :: rest =>
    match (getN ns cur).children c with
    | some nxt => insertFrom ns nxt rest
    | none =>
      let idx := ns.size
      let ns1 := ns.push (ACNode.fresh c)
      let old := getN ns1 cur
      let ns2 := setN ns1 cur
        { old with children := fun b => if b = c then some idx else old.children b }
      insertFrom ns2 idx rest

/-- The first loop of `_build_failure_links` over all 256 byte values: real
root children get `fail = root` and are queued (in byte order); absent root
child entries are redirected to the root itself. -/
def rootFixup (ns : Array ACNode) : Array ACNode × List Nat :=
  (List.range 256).foldl (fun (st : Array ACNode × List Nat) i =>
    match (getN st.1 0).children i with
    | some ch => (setN st.1 ch { getN st.1 ch with fail := some 0 }, st.2 ++ [ch])
    | none =>
      let root := getN st.1 0
      (setN st.1 0
        { root with children := fun b => if b = i then some 0 else root.children b },
        st.2)) (ns, [])

/-- The failure-chasing `while` loop
(`while fail_node != self.root and not fail_node.children[i]`), bounded by
fuel. -/
def findFail (ns : Array ACNode) (c : Nat) : Nat → Nat → Nat
  | 0, f => f
  | fuel + 1, f =>
    if f ≠ 0 ∧ (getN ns f).children c = none then
      findFail ns c fuel ((getN ns f).fail.getD 0)
    else f

/-- The BFS of `_build_failure_links` (queue popped from the front, children
appended in byte order), bounded by fuel. -/
def bfsFailLoop : Nat → Array ACNode → List Nat → Array ACNode
  | 0, ns, _ => ns
  | _ + 1, ns, [] => ns
  | fuel + 1, ns, u :: rest =>
    let st := (List.range 256).foldl (fun (st : Array ACNode × List Nat) i =>
      match (getN st.1 u).children i with
      | none => st
      | some child =>
        let f := findFail st.1 i st.1.size ((getN st.1 u).fail.getD 0)
        let nf := match (getN st.1 f).children i with
          | some w => w
          | none => 0
        (setN st.1 child { getN st.1 child with fail := some nf },
          st.2 ++ [child])) (ns, rest)
    bfsFailLoop fuel st.1 st.2

/-- The BFS of `_collect_outputs`, bounded by fuel: a node whose failure
target has a non-empty output set copies it; the `if current.is_final`
branch of the source is a `pass` stub, so no pattern id is ever added to
any output set (hence every output set stays empty). -/
def collectLoop : Nat → Array ACNode → List Nat → Array ACNode
  | 0, ns, _ => ns
  | _ + 1, ns, [] => ns
  | fuel + 1, ns, u :: rest =>
    let ns1 :=
      match (getN ns u).fail with
      | some f =>
        if (getN ns f).output.length > 0 then
          setN ns u { getN ns u with output := (getN ns f).output }
        else ns
      | none => ns
    let q := rest ++ (List.range 256).filterMap (fun i => (getN ns1 u).children i)
    collectLoop fuel ns1 q

/-- The full `ACAutomaton`: node array, node count, patterns and the
`pattern_to_id` dict (later duplicates override earlier ids, as in a Python
dict comprehension; modelled as the association list searched from the
right). -/
structure ACAutomaton where
  nodes : Array ACNode
  node_count : Nat
  patterns : List Bytes
  pattern_to_id : List (Bytes × Nat)

/-- Full `ACAutomaton.__cinit__`: one root node. -/
def ACAutomaton.cinit : ACAutomaton :=
  { nodes := #[ACNode.fresh 0], node_count := 1, patterns := []
    pattern_to_id := [] }

/-- Full `ACAutomaton.build(patterns)`: goto construction, failure links,
output collection.  `node_count` is incremented once per created node, so it
equals the final array size. -/
def ACAutomaton.build (a : ACAutomaton) (patterns : List Bytes) : ACAutomaton :=
  let ns0 := patterns.foldl (fun ns p => insertFrom ns 0 p) a.nodes
  let st := rootFixup ns0
  let ns2 := bfsFailLoop st.1.size st.1 st.2
  let ns3 := collectLoop (ns2.size * 256 + 1) ns2 [0]
  { nodes := ns3, node_count := ns3.size, patterns := patterns
    pattern_to_id := patterns.enum.map (fun ip => (ip.2, ip.1)) }

/-- One step of `_search` for one input byte: chase failure links while the
current non-root node lacks the child, then take the child edge if present. -/
def acStep (ns : Array ACNode) (cur : Nat) (c : Nat) : Nat :=
  let cur2 := findFail ns c ns.size cur
  match (getN ns cur2).children c with
  | some nxt => nxt
  | none => cur2

/-- Full `ACAutomaton._search` / `search`: walk the automaton over the text.
The match-reporting branch of the source
(`if current.is_final: ... pass  # Simplified match collection`) appends
nothing to `matches`, which is therefore returned empty. -/
def ACAutomaton.searchF (a : ACAutomaton) (text : Bytes) : List ACMatch :=
  (text.foldl (fun (st : Nat × List ACMatch) c =>
    (acStep a.nodes st.1 c, st.2)) (0, [])).2

end ACF

/-! ## Full regex engine (`src/ACCR_Replace/regex_engine.pyx`) -/

namespace RE

/-- The full `RegexEngine`: the compiled list keeps a `None` slot for each
pattern that failed to compile. -/
structure RegexEngine where
  compiled_patterns : List (Option Compiled)
  pattern_strings : List String
  pattern_to_id : List (String × Nat)

/-- Full `RegexEngine.__cinit__`. -/
def RegexEngine.cinit : RegexEngine := ⟨[], [], []⟩

/-- One iteration of the `_compile_patterns` loop: append the compiled
object, or — on `re.error` — print `Error compiling pattern <p>: <e>` and
append `None`.  The printed diagnostics are accumulated in the second
component. -/
def compileStep (o : ReOracle) (st : List (Option Compiled) × List String)
    (p : String) : List (Option Compiled) × List String :=
  match o.compile p with
  | .ok c => (st.1 ++ [some c], st.2)
  | .error e =>
    (st.1 ++ [none], st.2 ++ ["Error compiling pattern " ++ p ++ ": " ++ e])

/-- `_compile_patterns`: the loop over all patterns, starting from the
cleared compiled list. -/
def compilePatterns (o : ReOracle) (ps : List String) :
    List (Option Compiled) × List String :=
  ps.foldl (compileStep o) ([], [])

/-- Full `RegexEngine.build(patterns)`: record the pattern strings and the
id dict, then compile all patterns; compilation failures never abort the
build.  The second component is the printed diagnostics. -/
def RegexEngine.build (o : ReOracle) (_e : RegexEngine) (ps : List String) :
    RegexEngine × List String :=
  let st := compilePatterns o ps
  ({ compiled_patterns := st.1
     pattern_strings := ps
     pattern_to_id := ps.enum.map (fun ip => (ip.2, ip.1)) }, st.2)

/-- Full `RegexEngine.match` with `pattern_id = -1`, i.e. `_match_all`: the
nogil body is a stub (`# For now, return empty list`). -/
def RegexEngine.matchAll (_e : RegexEngine) (_text : Bytes) : List RegexMatch :=
  []

/-- `RegexEngine._match_with_python_re(text_str)` with `pattern_id = None`:
for each compiled slot in order, skip `None` entries and enumerate
`finditer` matches, labelled with `pattern_strings[i]` (the structure's
`matched` field stands for the dict key `matched_text`). -/
def RegexEngine.matchWithPythonRe (e : RegexEngine) (text : Bytes) :
    List RegexMatch :=
  e.compiled_patterns.enum.flatMap (fun ic =>
    match ic.2 with
    | some c =>
      (c.find text).map (fun r =>
        ⟨e.pattern_strings.getD ic.1 "", r.1, r.2.1, r.2.2⟩)
    | none => [])

/-- `RegexEngine.get_pattern_count`. -/
def RegexEngine.get_pattern_count (e : RegexEngine) : Nat :=
  e.compiled_patterns.length

end RE

/-! ## Circular stream buffer (`src/ACCR_Replace/ac_automaton.pyx`, fourth
document; struct declarations in `src/unnamed/part_002`) -/

namespace RB

/-- The `CircularBuffer` struct.  The malloc'd byte region is modelled as a
total function (only indices below `capacity` are ever read or written);
`dataValid` models whether the `data` pointer is non-NULL. -/
structure CircularBuffer where
  data : Nat → Nat
  dataValid : Bool
  capacity : Nat
  size : Nat
  read_pos : Nat
  write_pos : Nat
  is_full : Nat

/-- The `StreamBuffer` class wrapping the struct. -/
structure StreamBuffer where
  buffer : CircularBuffer
  default_capacity : Nat

/-- `StreamBuffer.__cinit__`: NULL data, all counters zero, default
capacity 8192. -/
def StreamBuffer.cinit : StreamBuffer :=
  { buffer := { data := fun _ => 0, dataValid := false, capacity := 0
                size := 0, read_pos := 0, write_pos := 0, is_full := 0 }
    default_capacity := 8192 }

/-- `memcpy(dst + pos, src, len)` on the modelled byte region. -/
def memCopy (f : Nat → Nat) (pos : Nat) (src : Bytes) : Nat → Nat :=
  fun i => if pos ≤ i ∧ i < pos + src.length then src.getD (i - pos) 0 else f i

/-- `initialize(capacity)`: a zero capacity falls back to
`default_capacity`; the old region is freed and a fresh zero-filled one
allocated (allocation is modelled as always succeeding). -/
def StreamBuffer.initBuffer (s : StreamBuffer) (capacity : Nat) : StreamBuffer :=
  let c := if capacity = 0 then s.default_capacity else capacity
  { s with buffer := { data := fun _ => 0, dataValid := true, capacity := c
                       size := 0, read_pos := 0, write_pos := 0, is_full := 0 } }

/-- `write(data)` / `_write(data, data_len)`: accept
`min(data_len, capacity - size)` bytes, copying them in at most two
contiguous chunks (wrap-around), then advance `write_pos` modulo the
capacity and grow `size`; returns the byte count written. -/
def StreamBuffer.write (s : StreamBuffer) (d : Bytes) : StreamBuffer × Nat :=
  let b := s.buffer
  if b.dataValid = false ∨ d.length = 0 then (s, 0)
  else
    let availableSpace := b.capacity - b.size
    let btw := if d.length ≤ availableSpace then d.length else availableSpace
    if btw = 0 then (s, 0)
    else
      let fc0 := b.capacity - b.write_pos
      let fc := if fc0 > btw then btw else fc0
      let d1 := memCopy b.data b.write_pos (d.take fc)
      let d2 := if fc < btw then memCopy d1 0 ((d.drop fc).take (btw - fc)) else d1
      let sz := b.size + btw
      ({ s with buffer := { b with data := d2
                                   write_pos := (b.write_pos + btw) % b.capacity
                                   size := sz
                                   is_full := if sz = b.capacity then 1 else b.is_full } },
       btw)

/-- `get_available_space` (`0` when the region is NULL). -/
def StreamBuffer.get_available_space (s : StreamBuffer) : Nat :=
  if s.buffer.dataValid = false then 0 else s.buffer.capacity - s.buffer.size

/-- `get_available_data` (`0` when the region is NULL). -/
def StreamBuffer.get_available_data (s : StreamBuffer) : Nat :=
  if s.buffer.dataValid = false then 0 else s.buffer.size

/-- `get_capacity`. -/
def StreamBuffer.get_capacity (s : StreamBuffer) : Nat := s.buffer.capacity

/-- `_read(output, output_len)`: copy out up to `size` bytes in at most two
contiguous chunks, advance `read_pos` modulo the capacity and shrink
`size`; the copied-out bytes are returned as the second component. -/
def StreamBuffer.rawRead (s : StreamBuffer) (outputLen : Nat) :
    StreamBuffer × Bytes :=
  let b := s.buffer
  if b.dataValid = false ∨ outputLen = 0 then (s, [])
  else
    let btr := if outputLen ≤ b.size then outputLen else b.size
    if btr = 0 then (s, [])
    else
      let fc0 := b.capacity - b.read_pos
      let fc := if fc0 > btr then btr else fc0
      let out1 := (List.range fc).map (fun i => b.data (b.read_pos + i))
      let out := if fc < btr
        then out1 ++ (List.range (btr - fc)).map (fun i => b.data i)
        else out1
      ({ s with buffer := { b with read_pos := (b.read_pos + btr) % b.capacity
                                   size := b.size - btr
                                   is_full := 0 } }, out)

/-- `read(length)` (cpdef): `length = 0` means all available, and a length
above the available data also reads all available; an empty read returns
`b""` without touching the buffer. -/
def StreamBuffer.read (s : StreamBuffer) (length : Nat) : StreamBuffer × Bytes :=
  let avail := s.get_available_data
  let btr := if 0 < length ∧ length ≤ avail then length else avail
  if btr = 0 then (s, [])
  else s.rawRead btr

/-- `_peek(output, output_len)`: same two-chunk copy as `_read` but with no
state update. -/
def StreamBuffer.rawPeek (s : StreamBuffer) (outputLen : Nat) : Bytes :=
  let b := s.buffer
  if b.dataValid = false ∨ outputLen = 0 then []
  else
    let btp := if outputLen ≤ b.size then outputLen else b.size
    if btp = 0 then []
    else
      let fc0 := b.capacity - b.read_pos
      let fc := if fc0 > btp then btp else fc0
      let out1 := (List.range fc).map (fun i => b.data (b.read_pos + i))
      if fc < btp then out1 ++ (List.range (btp - fc)).map (fun i => b.data i)
      else out1

/-- `peek(length)` (cpdef): like `read` but consumes nothing. -/
def StreamBuffer.peek (s : StreamBuffer) (length : Nat) : StreamBuffer × Bytes :=
  let avail := s.get_available_data
  let btp := if 0 < length ∧ length ≤ avail then length else avail
  if btp = 0 then (s, [])
  else (s, s.rawPeek btp)

/-- `clear()`: zero the region (when allocated) and reset all counters;
the capacity and the region's allocation are untouched. -/
def StreamBuffer.clearB (s : StreamBuffer) : StreamBuffer :=
  let b := s.buffer
  { s with buffer := { b with data := if b.dataValid then (fun _ => 0) else b.data
                              size := 0, read_pos := 0, write_pos := 0
                              is_full := 0 } }

end RB

/-! ## The `src/fastmatcher/matcher.pyx` Matcher -/

namespace FM

/-- The `Matcher` of `src/fastmatcher/matcher.pyx`: it combines the full
`ACAutomaton`, the full `RegexEngine` and the circular `StreamBuffer`, all
nullable. -/
structure Matcher where
  ac_automaton : Option ACF.ACAutomaton
  regex_engine : Option RE.RegexEngine
  stream_buffer : Option RB.StreamBuffer
  streaming_mode : Bool
  total_matches : Nat
  ac_patterns : List Bytes
  regex_patterns : List String

/-- `Matcher.build(patterns, regex)`: non-empty argument lists replace the
stored lists (Python truthiness of the `list` arguments); each engine is
re-created whenever its stored list is non-empty, and a streaming matcher
without a buffer gets an 8 KB circular buffer.  The regex engine's printed
diagnostics are dropped here (stdout). -/
def Matcher.build (o : ReOracle) (m : Matcher) (patterns : List Bytes)
    (regex : List String) : Matcher :=
  let m := if !patterns.isEmpty then { m with ac_patterns := patterns } else m
  let m := if !regex.isEmpty then { m with regex_patterns := regex } else m
  let m := if !m.ac_patterns.isEmpty then
      { m with ac_automaton := some (ACF.ACAutomaton.cinit.build m.ac_patterns) }
    else m
  let m := if !m.regex_patterns.isEmpty then
      { m with regex_engine := some (RE.RegexEngine.cinit.build o m.regex_patterns).1 }
    else m
  if m.streaming_mode && m.stream_buffer.isNone then
    { m with stream_buffer := some (RB.StreamBuffer.cinit.initBuffer 8192) }
  else m

/-- `Matcher.__cinit__(patterns, regex, streaming)`: stores the lists and,
when either list is non-empty (truthiness of `patterns or regex`), calls
`build` on them. -/
def Matcher.cinit (o : ReOracle) (patterns : List Bytes) (regex : List String)
    (streaming : Bool) : Matcher :=
  let m : Matcher :=
    { ac_automaton := none
      regex_engine := none
      stream_buffer := none
      streaming_mode := streaming
      total_matches := 0
      ac_patterns := patterns
      regex_patterns := regex }
  if !patterns.isEmpty || !regex.isEmpty then m.build o patterns regex else m

/-- `Matcher._process_chunk(chunk, chunk_len)`: the nogil body is a stub
(`# For now, return empty list as this is a simplified version`). -/
def process_chunk (_chunk : Bytes) : List MRecord := []

/-- `Matcher._combine_matches(ac_matches, regex_matches)`: the nogil body
discards both argument lists and returns the empty `combined_matches` list
(`# For now, return empty list as this is a simplified version`). -/
def combine_matches (_acM : List ACMatch) (_reM : List RegexMatch) :
    List MRecord := []

/-- `Matcher.feed(chunk)`: raise when streaming is off, raise when no
stream buffer exists, write the chunk to the circular buffer, return `[]`
when nothing was written, otherwise return `_process_chunk`'s result (the
stub `[]`).  Raises are modelled as `Except.error` with the pre-call state,
since they occur before any mutation. -/
def Matcher.feed (m : Matcher) (chunk : Bytes) :
    Except String (List MRecord) × Matcher :=
  if m.streaming_mode = false then
    (Except.error "Streaming mode not enabled. Use match() for batch processing.", m)
  else
    match m.stream_buffer with
    | none => (Except.error "Stream buffer not initialized. Call build() first.", m)
    | some sb =>
      let wr := RB.StreamBuffer.write sb chunk
      let m2 := { m with stream_buffer := some wr.1 }
      if wr.2 = 0 then (Except.ok [], m2)
      else (Except.ok (process_chunk chunk), m2)

/-- `Matcher.match(text)`: collect the full AC automaton's matches and (when
a regex engine exists) `_match_with_python_re`'s matches, then combine them
with the stubbed `_combine_matches`.  `total_matches` is never touched by
this method, and no other state changes, so the matcher is returned
unchanged. -/
def Matcher.matchText (m : Matcher) (text : Bytes) : List MRecord × Matcher :=
  let acMatches := match m.ac_automaton with
    | some a => a.searchF text
    | none => []
  let reMatches := match m.regex_engine with
    | some e => e.matchWithPythonRe text
    | none => []
  (combine_matches acMatches reMatches, m)

/-- `Matcher.reset()`: zero `total_matches` and clear the circular buffer
when one exists. -/
def Matcher.resetM (m : Matcher) : Matcher :=
  { m with total_matches := 0
           stream_buffer := m.stream_buffer.map RB.StreamBuffer.clearB }

end FM

/-! ## Claim theorems: the AC automatons and the part_001 Matcher -/

/-- The state/accumulator fold of the full `_search` never extends the match
list: the reporting branch of the source is a `pass` stub. -/
theorem searchF_fold_snd (ns : Array ACF.ACNode) :
    ∀ (l : Bytes) (st : Nat × List ACMatch),
      (l.foldl (fun st c => (ACF.acStep ns st.1 c, st.2)) st).2 = st.2 := by
  intro l
  induction l with
  | nil => intro st; rfl
  | cons c l ih => intro st; exact ih _

/-- The full `ACAutomaton.search` returns the empty list on every automaton
and every text. -/
theorem searchF_eq_nil (a : ACF.ACAutomaton) (text : Bytes) :
    a.searchF text = [] :=
  searchF_fold_snd a.nodes text (0, [])

/-- Claim C1: the claim states that after `build(P)` the search returns
exactly the occurrence multiset of every pattern.  The full implementation
violates this at `P = ["a"]`, `T = "a"`: its `_search` walks the automaton
but its match-collection branch is a `pass` stub (and `_collect_outputs`
never records a pattern id), so it returns `[]` where one occurrence
`("a", 0, 1)` is required — contradicting its own docstring (`Returns: List
of match positions and pattern IDs`) and spec §4.2.  The simplified
implementation does enumerate the occurrence, as the second conjunct
shows. -/
theorem claim_C1 :
    (ACF.ACAutomaton.cinit.build [[97]]).searchF [97] = []
    ∧ ACAutomatonS.search (ACAutomatonS.cinit.build [[97]]) [97] 1
        = [⟨[97], 0, 1⟩] :=
  ⟨searchF_eq_nil _ _, by decide⟩

/-- Claim C10: calling the simplified `ACAutomaton.search` before `build`
was ever called returns the empty list (the `if not self.built` guard) and
raises nothing, rather than signalling a not-built condition. -/
theorem claim_C10 (text : Bytes) (textLen : Nat) :
    ACAutomatonS.cinit.search text textLen = [] := by
  simp [ACAutomatonS.search, ACAutomatonS.cinit]

/-- Claim C9: on the `src/fastmatcher` Matcher, `match` always returns the
empty record list — `_combine_matches` discards both engines' results — and
leaves the matcher (in particular `total_matches`) unchanged. -/
theorem claim_C9 (m : FM.Matcher) (text : Bytes) :
    m.matchText text = ([], m) := by
  simp [FM.Matcher.matchText, FM.combine_matches]

/-- "banana" as bytes. -/
def bananaB : Bytes := [98, 97, 110, 97, 110, 97]

/-- Claim C2: the claim states that chunked `feed` output matches batch
`match` output with absolute offsets; this fails on the code, whose `feed`
(src/unnamed/part_001) processes each chunk in isolation — it never touches
the stream buffer and reports chunk-relative offsets — so the pattern
`"banana"` split across `"bana"`, `"nana"` is never reported by the
streaming side, while the identically-built batch matcher reports it at
`(0, 6)`. -/
theorem claim_C2 :
    ((PM.Matcher.cinit noOracle [bananaB] [] true).feed
        [98, 97, 110, 97]).1 = Except.ok []
    ∧ ((((PM.Matcher.cinit noOracle [bananaB] [] true).feed
        [98, 97, 110, 97]).2).feed [110, 97, 110, 97]).1 = Except.ok []
    ∧ (((((PM.Matcher.cinit noOracle [bananaB] [] true).feed
        [98, 97, 110, 97]).2).feed [110, 97, 110, 97]).2.feed []).1
        = Except.ok []
    ∧ ((PM.Matcher.cinit noOracle [bananaB] [] false).matchText
        [98, 97, 110, 97, 110, 97, 110, 97]).1
        = Except.ok [MRecord.lit bananaB 0 6] :=
  ⟨rfl, rfl, rfl, rfl⟩

/-- Claim C8: on the part_001 Matcher, `match(T)` then `reset()` then
`match(T)` yields identical records; `total_matches` afterwards equals the
single-call match count; `reset` zeroes the counter and empties the stream
buffer (when present) but neither rebuilds nor discards the engines. -/
theorem claim_C8 (m : PM.Matcher) (t : Bytes) :
    ((m.matchText t).2.resetM.matchText t).1 = (m.matchText t).1
    ∧ ((m.matchText t).2.resetM.matchText t).2.total_matches
        = (PM.process_chunk m.ac_automaton m.regex_engine t).length
    ∧ (m.matchText t).2.resetM.ac_automaton = m.ac_automaton
    ∧ (m.matchText t).2.resetM.regex_engine = m.regex_engine
    ∧ (m.matchText t).2.resetM.total_matches = 0
    ∧ (m.matchText t).2.resetM.stream_buffer
        = m.stream_buffer.map (fun _ => StreamBufferS.cinit) := by
  refine ⟨rfl, by simp [PM.Matcher.matchText, PM.Matcher.resetM], rfl, rfl, rfl, ?_⟩
  cases h : m.stream_buffer <;>
    simp [PM.Matcher.matchText, PM.Matcher.resetM, h, StreamBufferS.resetB,
      StreamBufferS.cinit]

/-! ## Claim C4: mode errors -/

/-- Claim C4 counterexample: the claim asserts `match(text)` fails with a
mode error precisely when streaming is enabled; on a built streaming
part_001 Matcher, `match` does not fail — it processes the text as a batch
and returns its matches — so the asserted equivalence is false. -/
theorem claim_C4_counterexample :
    (PM.Matcher.cinit noOracle [[97]] [] true).streaming_mode = true
    ∧ ((PM.Matcher.cinit noOracle [[97]] [] true).matchText [97]).1
        = Except.ok [MRecord.lit [97] 0 1]
    ∧ ¬ (exceptIsError
          ((PM.Matcher.cinit noOracle [[97]] [] true).matchText [97]).1 = true
        ↔ (PM.Matcher.cinit noOracle [[97]] [] true).streaming_mode = true) :=
  ⟨rfl, rfl, by decide⟩

/-- On the fastmatcher Matcher, a `feed` in streaming mode with a present
stream buffer never fails: both post-write branches return `Except.ok`. -/
theorem fm_feed_streaming (m2 : FM.Matcher) (c2 : Bytes)
    (sb : RB.StreamBuffer) (h2 : m2.streaming_mode = true)
    (hsb : m2.stream_buffer = some sb) :
    exceptIsError (m2.feed c2).1 = false := by
  unfold FM.Matcher.feed
  rw [if_neg (by simp [h2]), hsb]
  dsimp only
  split <;> rfl

/-- Claim C4 (amended): `feed` fails with a mode error iff streaming mode is
off (for the fastmatcher Matcher additionally assuming the stream buffer
exists, which `build` guarantees on a built streaming matcher), and the
failing call leaves the matcher unchanged; `match` never fails with a mode
error — in streaming mode it simply processes the text. -/
theorem claim_C4
    (m : PM.Matcher) (c : Bytes) (m2 : FM.Matcher) (c2 : Bytes)
    (hbuf : m2.stream_buffer.isSome = true) :
    (exceptIsError (m.feed c).1 = true ↔ m.streaming_mode = false)
    ∧ (exceptIsError (m.feed c).1 = true → (m.feed c).2 = m)
    ∧ (∀ t : Bytes, exceptIsError (m.matchText t).1 = false)
    ∧ (exceptIsError (m2.feed c2).1 = true ↔ m2.streaming_mode = false)
    ∧ (exceptIsError (m2.feed c2).1 = true → (m2.feed c2).2 = m2) := by
  obtain ⟨sb, hsb⟩ := Option.isSome_iff_exists.mp hbuf
  refine ⟨?_, ?_, fun t => rfl, ?_, ?_⟩
  · by_cases h : m.streaming_mode = false <;>
      simp [PM.Matcher.feed, h, exceptIsError]
  · intro hE
    by_cases h : m.streaming_mode = false
    · simp [PM.Matcher.feed, h]
    · exfalso; revert hE; simp [PM.Matcher.feed, h, exceptIsError]
  · by_cases h2 : m2.streaming_mode = false
    · simp [FM.Matcher.feed, h2, exceptIsError]
    · simp only [Bool.not_eq_false] at h2
      simp [fm_feed_streaming m2 c2 sb h2 hsb, h2]
  · intro hE
    by_cases h2 : m2.streaming_mode = false
    · simp [FM.Matcher.feed, h2]
    · exfalso
      simp only [Bool.not_eq_false] at h2
      rw [fm_feed_streaming m2 c2 sb h2 hsb] at hE
      exact Bool.false_ne_true hE

/-- A concrete fastmatcher Matcher state (streaming off, buffer present)
used to witness the amended C4. -/
def fmProbe : FM.Matcher :=
  { ac_automaton := none, regex_engine := none
    stream_buffer := some (RB.StreamBuffer.cinit.initBuffer 8192)
    streaming_mode := false, total_matches := 0
    ac_patterns := [], regex_patterns := [] }

/-- Witness for the amended C4, at a batch-mode part_001 Matcher and the
concrete fastmatcher state `fmProbe`. -/
theorem claim_C4_witness :
    exceptIsError ((PM.Matcher.cinit noOracle [[97]] [] false).feed [98]).1
      = true
    ∧ ((PM.Matcher.cinit noOracle [[97]] [] false).feed [98]).2
        = PM.Matcher.cinit noOracle [[97]] [] false
    ∧ exceptIsError (fmProbe.feed [97]).1 = true := by
  have h := claim_C4 (PM.Matcher.cinit noOracle [[97]] [] false) [98]
    fmProbe [97] rfl
  exact ⟨h.1.mpr rfl, h.2.1 (h.1.mpr rfl), h.2.2.2.1.mpr rfl⟩

/-! ## Claim C3: record ordering -/

/-- The spec's ordering key on records, restricted to the components a
record carries: lexicographic `(start, end, kind_order)`.  (The claim's
fourth key component, the pattern id, is not stored in a record; an output
violating this prefix order already violates the claim's order.) -/
def keyLe (a b : MRecord) : Prop :=
  a.mstart < b.mstart
  ∨ (a.mstart = b.mstart
      ∧ (a.mstop < b.mstop ∨ (a.mstop = b.mstop ∧ a.kindOrder ≤ b.kindOrder)))

instance : DecidableRel keyLe := fun a b =>
  inferInstanceAs (Decidable (a.mstart < b.mstart
    ∨ (a.mstart = b.mstart
        ∧ (a.mstop < b.mstop ∨ (a.mstop = b.mstop ∧ a.kindOrder ≤ b.kindOrder)))))

/-- "Sorted in the claim's order": every pair in order respects `keyLe`
(this is how `List.Sorted` is defined). -/
def claimSorted (l : List MRecord) : Prop := List.Pairwise keyLe l

instance : DecidablePred claimSorted := fun l =>
  inferInstanceAs (Decidable (List.Pairwise keyLe l))

/-- Claim C3 counterexample: the part_001 Matcher built with patterns
`["b", "a"]` returns, for `match("ab")`, the `"b"` occurrence `(1, 2)`
before the `"a"` occurrence `(0, 1)` — the simplified search enumerates
pattern-major — so the output is not sorted in ascending
`(start, end, kind_order, pattern_id)` order. -/
theorem claim_C3_counterexample :
    ((PM.Matcher.cinit noOracle [[98], [97]] [] false).matchText [97, 98]).1
      = Except.ok [MRecord.lit [98] 1 2, MRecord.lit [97] 0 1]
    ∧ ¬ claimSorted [MRecord.lit [98] 1 2, MRecord.lit [97] 0 1] :=
  ⟨rfl, by decide⟩

/-- Every entry of `patOccs` carries the scanned pattern and the start it
was emitted at, with `end = start + |p|`. -/
theorem patOccs_mem {text : Bytes} {alen : Nat} {p : Bytes} {r : ACMatch}
    (h : r ∈ patOccs text alen p) :
    r.pattern = p ∧ r.mstop = r.mstart + p.length := by
  unfold patOccs at h
  rw [List.mem_filterMap] at h
  obtain ⟨j, _, hj⟩ := h
  split at hj
  · cases hj; exact ⟨rfl, rfl⟩
  · cases hj

/-- The starts emitted by `patOccs` are strictly increasing (the `j` loop
ascends). -/
theorem patOccs_pairwise (text : Bytes) (alen : Nat) (p : Bytes) :
    List.Pairwise (fun a b => a.mstart < b.mstart) (patOccs text alen p) := by
  unfold patOccs
  refine List.Pairwise.filterMap _ ?_ (List.pairwise_lt_range _)
  intro a a' hlt b hb b' hb'
  rw [Option.mem_def] at hb hb'
  split at hb
  · cases hb
    split at hb'
    · cases hb'; simpa using hlt
    · cases hb'
  · cases hb

/-- Claim C3 (amended): within a single `match`/`feed` result of the
part_001 Matcher, all literal records precede all regex records (hence a
literal record still precedes a regex record at equal offsets), and the
literal part is a concatenation of per-pattern runs, each run listing one
pattern's occurrences with strictly ascending starts.  The output is not
globally sorted by `(start, end, kind_order, pattern_id)` — see the
counterexample. -/
theorem claim_C3 (m : PM.Matcher) (t : Bytes) :
    ∃ la ra, (m.matchText t).1 = Except.ok (la ++ ra)
      ∧ (∀ r ∈ la, r.kindOrder = 0)
      ∧ (∀ r ∈ ra, r.kindOrder = 1)
      ∧ ∃ runs : List (List MRecord), la = runs.flatten
          ∧ ∀ run ∈ runs,
              List.Pairwise (fun a b => a.mstart < b.mstart) run
              ∧ ∃ p, ∀ r ∈ run, ∃ s e, r = MRecord.lit p s e := by
  obtain ⟨acM, hac⟩ : ∃ acM, (match m.ac_automaton with
      | some a => a.search t t.length
      | none => []) = acM := ⟨_, rfl⟩
  obtain ⟨reM, hre⟩ : ∃ reM, (match m.regex_engine with
      | some e => e.matchText t
      | none => []) = reM := ⟨_, rfl⟩
  refine ⟨acM.map (fun r => MRecord.lit r.pattern r.mstart r.mstop),
          reM.map (fun r => MRecord.rex r.pattern r.mstart r.mstop r.matched),
          ?_, ?_, ?_, ?_⟩
  · simp only [PM.Matcher.matchText, PM.process_chunk, PM.combine_matches,
      hac, hre]
  · intro r hr
    rw [List.mem_map] at hr
    obtain ⟨x, _, rfl⟩ := hr
    rfl
  · intro r hr
    rw [List.mem_map] at hr
    obtain ⟨x, _, rfl⟩ := hr
    rfl
  · -- the literal part decomposes into per-pattern runs
    match hAC : m.ac_automaton with
    | none =>
      refine ⟨[], ?_, by simp⟩
      rw [hAC] at hac
      simp [← hac]
    | some a =>
      rw [hAC] at hac
      dsimp only at hac
      by_cases hb : a.built = false
      · refine ⟨[], ?_, by simp⟩
        rw [← hac]
        simp [ACAutomatonS.search, hb]
      · have hs : a.search t t.length
            = a.patterns.flatMap
                (fun p => patOccs t (if t.length > 0 then t.length else t.length) p) := by
          simp [ACAutomatonS.search, hb]
        refine ⟨a.patterns.map (fun p =>
          (patOccs t (if t.length > 0 then t.length else t.length) p).map
            (fun r => MRecord.lit r.pattern r.mstart r.mstop)), ?_, ?_⟩
        · rw [← hac, hs]
          rw [List.map_flatMap, List.flatMap_def]
        · intro run hrun
          rw [List.mem_map] at hrun
          obtain ⟨p, _, rfl⟩ := hrun
          constructor
          · rw [List.pairwise_map]
            exact (patOccs_pairwise _ _ _).imp (fun h => h)
          · refine ⟨p, ?_⟩
            intro r hr
            rw [List.mem_map] at hr
            obtain ⟨x, hx, rfl⟩ := hr
            exact ⟨x.mstart, x.mstop, by rw [(patOccs_mem hx).1]⟩

/-! ## Claim C7: invalid regex patterns never abort the build -/

/-- The compiled-slot list produced by the `_compile_patterns` loop is one
`toOption` slot per pattern, in order. -/
theorem compilePatterns_fst (o : ReOracle) :
    ∀ (ps : List String) (acc : List (Option Compiled) × List String),
      (ps.foldl (RE.compileStep o) acc).1
        = acc.1 ++ ps.map (fun p => (o.compile p).toOption) := by
  intro ps
  induction ps with
  | nil => intro acc; simp
  | cons p ps ih =>
    intro acc
    rw [List.foldl_cons, ih]
    cases h : o.compile p <;> simp [RE.compileStep, h, Except.toOption]

/-- The `_compile_patterns` loop prints exactly one diagnostic per pattern
that fails to compile. -/
theorem compilePatterns_snd_length (o : ReOracle) :
    ∀ (ps : List String) (acc : List (Option Compiled) × List String),
      (ps.foldl (RE.compileStep o) acc).2.length
        = acc.2.length
          + (ps.filter (fun p => (o.compile p).toOption.isNone)).length := by
  intro ps
  induction ps with
  | nil => intro acc; simp
  | cons p ps ih =>
    intro acc
    rw [List.foldl_cons, ih]
    cases h : o.compile p <;>
      simp [RE.compileStep, h, List.filter_cons, Except.toOption]
    all_goals omega

/-- Claim C7: `RegexEngine.build` (full engine,
`src/ACCR_Replace/regex_engine.pyx`) never aborts because a pattern is an
invalid regex: the build completes with one compiled slot per pattern
(`None` for each failure) and one printed diagnostic per failure; and
concretely, for patterns `["(", "foo"]` where the oracle (Python `re`,
external to the repository) rejects `"("` and compiles `"foo"` to a matcher
with one occurrence in the text `"foo"`, the scan used by the Matcher
(`_match_with_python_re`) reports exactly that one `"foo"` match. -/
theorem claim_C7 (o : ReOracle) (ps : List String) :
    ((RE.RegexEngine.cinit.build o ps).1.pattern_strings = ps
      ∧ (RE.RegexEngine.cinit.build o ps).1.compiled_patterns
          = ps.map (fun p => (o.compile p).toOption)
      ∧ (RE.RegexEngine.cinit.build o ps).2.length
          = (ps.filter (fun p => (o.compile p).toOption.isNone)).length)
    ∧ ∀ c : Compiled,
        (o.compile "(").toOption = none →
        o.compile "foo" = Except.ok c →
        c.find [102, 111, 111] = [(0, 3, "foo")] →
        RE.RegexEngine.matchWithPythonRe
            (RE.RegexEngine.cinit.build o ["(", "foo"]).1 [102, 111, 111]
          = [⟨"foo", 0, 3, "foo"⟩] := by
  constructor
  · refine ⟨rfl, ?_, ?_⟩
    · simpa using compilePatterns_fst o ps ([], [])
    · simpa using compilePatterns_snd_length o ps ([], [])
  · intro c h1 h2 h3
    have hcomp : (RE.RegexEngine.cinit.build o ["(", "foo"]).1.compiled_patterns
        = [none, some c] := by
      cases hcc : o.compile "(" with
      | ok c2 => rw [hcc] at h1; simp [Except.toOption] at h1
      | error e =>
        simp [RE.RegexEngine.build, RE.compilePatterns, RE.compileStep, hcc, h2]
    have hstr : (RE.RegexEngine.cinit.build o ["(", "foo"]).1.pattern_strings
        = ["(", "foo"] := rfl
    unfold RE.RegexEngine.matchWithPythonRe
    rw [hcomp, hstr]
    simp [List.enum, h3]

/-- The compiled pattern used by the C7 witness oracle: it matches the
byte string `"foo"` at `(0, 3)`. -/
def fooCompiled : Compiled :=
  ⟨"foo", fun t => if t = [102, 111, 111] then [(0, 3, "foo")] else []⟩

/-- The C7 witness oracle: `"foo"` compiles, everything else is rejected
as an unbalanced parenthesis. -/
def probeOracle : ReOracle :=
  ⟨fun p => if p = "foo" then Except.ok fooCompiled
            else Except.error "missing closing parenthesis"⟩

/-- Witness for C7 at the concrete oracle `probeOracle`. -/
theorem claim_C7_witness :
    RE.RegexEngine.matchWithPythonRe
        (RE.RegexEngine.cinit.build probeOracle ["(", "foo"]).1 [102, 111, 111]
      = [⟨"foo", 0, 3, "foo"⟩] :=
  (claim_C7 probeOracle ["(", "foo"]).2 fooCompiled rfl rfl rfl

/-! ## Ring-buffer verification (claims C5 and C6) -/

/-- Reduction of `a % cap` for `a < 2 * cap`. -/
theorem two_mod (a cap : Nat) (h : a < 2 * cap) :
    a % cap = if a < cap then a else a - cap := by
  split
  · exact Nat.mod_eq_of_lt (by assumption)
  · rw [Nat.mod_eq_sub_mod (by omega)]
    exact Nat.mod_eq_of_lt (by omega)

/-- `getD` through `take`. -/
theorem getD_take (l : Bytes) (n i : Nat) (h : i < n) :
    (l.take n).getD i 0 = l.getD i 0 := by
  simp only [List.getD, List.get?_eq_getElem?]
  rw [List.getElem?_take_of_lt h]

/-- `getD` through `drop`. -/
theorem getD_drop (l : Bytes) (n i : Nat) :
    (l.drop n).getD i 0 = l.getD (n + i) 0 := by
  simp only [List.getD, List.get?_eq_getElem?]
  rw [List.getElem?_drop]

/-- Well-formedness of an allocated circular buffer: region present,
positive capacity, size within capacity, read position in range, and the
write position determined by the read position and the size. -/
def CWf (s : RB.StreamBuffer) : Prop :=
  s.buffer.dataValid = true
  ∧ 0 < s.buffer.capacity
  ∧ s.buffer.size ≤ s.buffer.capacity
  ∧ s.buffer.read_pos < s.buffer.capacity
  ∧ s.buffer.write_pos
      = (s.buffer.read_pos + s.buffer.size) % s.buffer.capacity

/-- The queue of unread bytes held by the buffer, in read order. -/
def queueOf (s : RB.StreamBuffer) : Bytes :=
  (List.range s.buffer.size).map
    (fun i => s.buffer.data ((s.buffer.read_pos + i) % s.buffer.capacity))

theorem queueOf_length (s : RB.StreamBuffer) :
    (queueOf s).length = s.buffer.size := by
  simp [queueOf]

/-- Pointwise effect of the (at most two) `memcpy`s of `_write` on the
data region, seen through the queue positions: positions holding unread
bytes are untouched, and queue position `size + j` receives byte `j` of
the accepted data. -/
theorem write_data_at (dataF : Nat → Nat) (cap sz rp wp btw fc : Nat)
    (d : Bytes)
    (hcap : 0 < cap) (hsz : sz ≤ cap) (hrp : rp < cap)
    (hwp : wp = (rp + sz) % cap)
    (hbtw1 : btw ≤ cap - sz) (hbtw2 : btw ≤ d.length)
    (hfc : fc = if cap - wp > btw then btw else cap - wp)
    (i : Nat) (hi : i < sz + btw) :
    (if fc < btw
     then RB.memCopy (RB.memCopy dataF wp (d.take fc)) 0
            ((d.drop fc).take (btw - fc))
     else RB.memCopy dataF wp (d.take fc)) ((rp + i) % cap)
    = if i < sz then dataF ((rp + i) % cap) else d.getD (i - sz) 0 := by
  have hwlt : wp < cap := by
    rw [hwp]; exact Nat.mod_lt _ hcap
  have hwp2 : wp = rp + sz ∨ wp + cap = rp + sz := by
    rw [hwp, two_mod _ _ (by omega)]
    split <;> omega
  have hfc2 : fc ≤ btw ∧ fc ≤ cap - wp ∧ (fc < btw → fc = cap - wp) := by
    rw [hfc]; split <;> omega
  have hlen1 : (d.take fc).length = fc := by
    rw [List.length_take]; omega
  have hlen2 : ((d.drop fc).take (btw - fc)).length = btw - fc := by
    rw [List.length_take, List.length_drop]; omega
  obtain ⟨p, hpeq, hplt, hpc⟩ :
      ∃ p, (rp + i) % cap = p ∧ p < cap ∧ (p = rp + i ∨ p + cap = rp + i) := by
    refine ⟨(rp + i) % cap, rfl, Nat.mod_lt _ hcap, ?_⟩
    rw [two_mod _ _ (by omega)]
    split
    · exact Or.inl rfl
    · exact Or.inr (by omega)
  rw [hpeq]
  obtain ⟨hf1, hf2, hf3⟩ := hfc2
  by_cases hA : wp ≤ p ∧ p < wp + fc
  · -- `p` lies in the first copied chunk: queue slot `sz + (p - wp)`
    have his : ¬ i < sz := by
      rcases hwp2 with h1 | h1 <;> rcases hpc with h2 | h2 <;> omega
    have hidx : p - wp = i - sz := by
      rcases hwp2 with h1 | h1 <;> rcases hpc with h2 | h2 <;> omega
    by_cases hwrap : fc < btw
    · have hB : ¬ p < btw - fc := by
        have hfceq : fc = cap - wp := hf3 hwrap
        rcases hwp2 with h1 | h1 <;> rcases hpc with h2 | h2 <;> omega
      rw [if_pos hwrap]
      simp only [RB.memCopy, hlen1, hlen2]
      rw [if_neg (by omega), if_pos (by omega)]
      rw [hidx, getD_take _ _ _ (by omega), if_neg his]
    · rw [if_neg hwrap]
      simp only [RB.memCopy, hlen1]
      rw [if_pos (by omega)]
      rw [hidx, getD_take _ _ _ (by omega), if_neg his]
  · by_cases hB : fc < btw ∧ p < btw - fc
    · -- `p` lies in the wrapped second chunk: queue slot `sz + fc + p`
      have hfceq : fc = cap - wp := hf3 hB.1
      have hwp3 : wp = rp + sz := by
        rcases hwp2 with h1 | h1
        · exact h1
        · omega
      have his : ¬ i < sz := by
        rcases hpc with h2 | h2 <;> omega
      rw [if_pos hB.1]
      simp only [RB.memCopy, hlen1, hlen2]
      rw [if_pos (by omega)]
      rw [Nat.sub_zero, getD_take _ _ _ (by omega), getD_drop, if_neg his]
      congr 1
      rcases hpc with h2 | h2 <;> omega
    · -- `p` is untouched: it holds an unread byte
      have his : i < sz := by
        rcases hwp2 with h1 | h1 <;> rcases hpc with h2 | h2 <;> omega
      by_cases hwrap : fc < btw
      · rw [if_pos hwrap]
        simp only [RB.memCopy, hlen1, hlen2]
        rw [if_neg (by omega), if_neg (by omega), if_pos his]
      · rw [if_neg hwrap]
        simp only [RB.memCopy, hlen1]
        rw [if_neg (by omega), if_pos his]

/-- Entry `i` of the byte queue. -/
theorem queueOf_getD (s : RB.StreamBuffer) (i : Nat) (h : i < s.buffer.size) :
    (queueOf s).getD i 0
      = s.buffer.data ((s.buffer.read_pos + i) % s.buffer.capacity) := by
  rw [List.getD_eq_getElem _ _ (by rw [queueOf_length]; omega)]
  simp [queueOf]

/-- Full specification of `write` on a well-formed buffer: it accepts
`min(|d|, capacity - size)` bytes, stays well-formed, keeps the capacity
and the read position, grows the size by the accepted count, and appends
exactly the accepted bytes to the byte queue (in particular it never
overwrites unread data). -/
theorem write_spec (s : RB.StreamBuffer) (d : Bytes) (h : CWf s) :
    (s.write d).2 = min d.length (s.buffer.capacity - s.buffer.size)
    ∧ CWf (s.write d).1
    ∧ (s.write d).1.buffer.capacity = s.buffer.capacity
    ∧ (s.write d).1.buffer.size = s.buffer.size + (s.write d).2
    ∧ (s.write d).1.buffer.read_pos = s.buffer.read_pos
    ∧ (s.write d).1.default_capacity = s.default_capacity
    ∧ queueOf (s.write d).1 = queueOf s ++ d.take (s.write d).2 := by
  obtain ⟨hv, hcap, hsz, hrp, hwp⟩ := h
  by_cases hd : d.length = 0
  · have hw0 : s.write d = (s, 0) := by
      unfold RB.StreamBuffer.write
      rw [if_pos (Or.inr hd)]
    rw [hw0]
    exact ⟨by simp [hd], ⟨hv, hcap, hsz, hrp, hwp⟩, rfl, rfl, rfl, rfl,
      by simp⟩
  · have hcond : ¬ (s.buffer.dataValid = false ∨ d.length = 0) := by
      simp [hv, hd]
    by_cases hbz : (if d.length ≤ s.buffer.capacity - s.buffer.size
        then d.length else s.buffer.capacity - s.buffer.size) = 0
    · have hw0 : s.write d = (s, 0) := by
        unfold RB.StreamBuffer.write
        rw [if_neg hcond]
        dsimp only
        rw [if_pos hbz]
      rw [hw0]
      have hmin0 : min d.length (s.buffer.capacity - s.buffer.size) = 0 := by
        rw [Nat.min_def]; exact hbz
      exact ⟨hmin0.symm, ⟨hv, hcap, hsz, hrp, hwp⟩, rfl, rfl, rfl, rfl,
        by simp⟩
    · unfold RB.StreamBuffer.write
      rw [if_neg hcond]
      dsimp only
      rw [if_neg hbz]
      dsimp only
      refine ⟨?_, ⟨hv, hcap, ?_, hrp, ?_⟩, rfl, rfl, rfl, rfl, ?_⟩
      · rw [Nat.min_def]
      · dsimp only
        split <;> omega
      · dsimp only
        rw [hwp, Nat.mod_add_mod, Nat.add_assoc]
      · apply List.ext_getElem
        · simp only [queueOf, List.length_map, List.length_range,
            List.length_append, List.length_take]
          split <;> omega
        · intro i h1 h2
          have h1' : i < s.buffer.size
              + (if d.length ≤ s.buffer.capacity - s.buffer.size
                 then d.length else s.buffer.capacity - s.buffer.size) := by
            simpa [queueOf] using h1
          rw [← List.getD_eq_getElem _ 0 h1, ← List.getD_eq_getElem _ 0 h2]
          rw [queueOf_getD _ _ (by dsimp only; exact h1')]
          dsimp only
          rw [write_data_at s.buffer.data s.buffer.capacity s.buffer.size
            s.buffer.read_pos s.buffer.write_pos _ _ d hcap hsz hrp hwp
            (by split <;> omega) (by split <;> omega) rfl i h1']
          by_cases his : i < s.buffer.size
          · rw [if_pos his,
              List.getD_append _ _ _ _ (by rw [queueOf_length]; omega),
              queueOf_getD _ _ his]
          · rw [if_neg his,
              List.getD_append_right _ _ _ _ (by rw [queueOf_length]; omega),
              queueOf_length, getD_take _ _ _ (by omega)]

/-- `getD` of a mapped range. -/
theorem getD_map_range (f : Nat → Nat) (nn i : Nat) (h : i < nn) :
    ((List.range nn).map f).getD i 0 = f i := by
  rw [List.getD_eq_getElem _ _ (by simpa using h)]
  simp

/-- Full specification of `_read` on a well-formed buffer, for a requested
count `0 < m ≤ size`: it returns the first `m` queued bytes, consumes
exactly them, stays well-formed and keeps the capacity. -/
theorem rawRead_spec (s : RB.StreamBuffer) (m : Nat) (h : CWf s)
    (hm0 : 0 < m) (hms : m ≤ s.buffer.size) :
    (s.rawRead m).2 = (queueOf s).take m
    ∧ CWf (s.rawRead m).1
    ∧ (s.rawRead m).1.buffer.capacity = s.buffer.capacity
    ∧ (s.rawRead m).1.buffer.size = s.buffer.size - m
    ∧ (s.rawRead m).1.default_capacity = s.default_capacity
    ∧ queueOf (s.rawRead m).1 = (queueOf s).drop m := by
  obtain ⟨hv, hcap, hsz, hrp, hwp⟩ := h
  unfold RB.StreamBuffer.rawRead
  rw [if_neg (by simp [hv]; omega)]
  dsimp only
  rw [if_pos hms, if_neg (by omega)]
  dsimp only
  refine ⟨?_, ⟨hv, hcap, ?_, ?_, ?_⟩, rfl, rfl, rfl, ?_⟩
  · -- the returned bytes are the first `m` queued bytes
    by_cases hfb : s.buffer.capacity - s.buffer.read_pos > m
    · rw [if_pos hfb, if_neg (Nat.lt_irrefl m)]
      apply List.ext_getElem
      · simp only [List.length_map, List.length_range, List.length_take,
          queueOf_length]
        omega
      · intro i h1 h2
        simp only [List.length_map, List.length_range] at h1
        rw [← List.getD_eq_getElem _ 0 (by simpa using h1),
          ← List.getD_eq_getElem _ 0 h2]
        rw [getD_map_range _ _ _ h1, getD_take _ _ _ h1,
          queueOf_getD _ _ (by omega), Nat.mod_eq_of_lt (by omega)]
    · rw [if_neg hfb]
      by_cases hwrap : s.buffer.capacity - s.buffer.read_pos < m
      · rw [if_pos hwrap]
        apply List.ext_getElem
        · simp only [List.length_append, List.length_map, List.length_range,
            List.length_take, queueOf_length]
          omega
        · intro i h1 h2
          simp only [List.length_append, List.length_map,
            List.length_range] at h1
          have him : i < m := by omega
          rw [← List.getD_eq_getElem _ 0 (by simpa using h1),
            ← List.getD_eq_getElem _ 0 h2]
          rw [getD_take _ _ _ him, queueOf_getD _ _ (by omega)]
          by_cases hic : i < s.buffer.capacity - s.buffer.read_pos
          · rw [List.getD_append _ _ _ _ (by simpa using hic),
              getD_map_range _ _ _ hic, Nat.mod_eq_of_lt (by omega)]
          · rw [List.getD_append_right _ _ _ _ (by simpa using hic)]
            simp only [List.length_map, List.length_range]
            rw [getD_map_range _ _ _ (by omega)]
            rw [two_mod _ _ (by omega), if_neg (by omega)]
            congr 1
            omega
      · rw [if_neg hwrap]
        apply List.ext_getElem
        · simp only [List.length_map, List.length_range, List.length_take,
            queueOf_length]
          omega
        · intro i h1 h2
          simp only [List.length_map, List.length_range] at h1
          rw [← List.getD_eq_getElem _ 0 (by simpa using h1),
            ← List.getD_eq_getElem _ 0 h2]
          rw [getD_map_range _ _ _ h1, getD_take _ _ _ (by omega),
            queueOf_getD _ _ (by omega), Nat.mod_eq_of_lt (by omega)]
  · dsimp only
    omega
  · dsimp only
    exact Nat.mod_lt _ hcap
  · dsimp only
    rw [hwp, Nat.mod_add_mod]
    congr 1
    omega
  · -- the new queue is the old queue minus the consumed prefix
    apply List.ext_getElem
    · simp [queueOf_length]
    · intro i h1 h2
      have hi : i < s.buffer.size - m := by
        simpa [queueOf_length] using h1
      rw [← List.getD_eq_getElem _ 0 h1, ← List.getD_eq_getElem _ 0 h2]
      rw [queueOf_getD _ _ (by dsimp only; exact hi)]
      dsimp only
      rw [getD_drop, queueOf_getD _ _ (by omega), Nat.mod_add_mod,
        Nat.add_assoc]

/-- Full specification of `read` (cpdef) on a well-formed buffer: with
`btr = n` when `0 < n ≤ size` and `btr = size` otherwise (`0` means "all
available", larger requests clamp to the available data), it returns the
first `btr` queued bytes and consumes exactly them. -/
theorem read_spec (s : RB.StreamBuffer) (n : Nat) (h : CWf s) :
    (s.read n).2 = (queueOf s).take
        (if 0 < n ∧ n ≤ s.buffer.size then n else s.buffer.size)
    ∧ CWf (s.read n).1
    ∧ (s.read n).1.buffer.capacity = s.buffer.capacity
    ∧ (s.read n).1.buffer.size = s.buffer.size
        - (if 0 < n ∧ n ≤ s.buffer.size then n else s.buffer.size)
    ∧ (s.read n).1.default_capacity = s.default_capacity
    ∧ queueOf (s.read n).1 = (queueOf s).drop
        (if 0 < n ∧ n ≤ s.buffer.size then n else s.buffer.size) := by
  obtain ⟨hv, hcap, hsz, hrp, hwp⟩ := h
  have hav : s.get_available_data = s.buffer.size := by
    simp [RB.StreamBuffer.get_available_data, hv]
  by_cases hb0 : (if 0 < n ∧ n ≤ s.buffer.size then n else s.buffer.size) = 0
  · have hsz0 : s.buffer.size = 0 := by
      by_cases hc : 0 < n ∧ n ≤ s.buffer.size
      · rw [if_pos hc] at hb0; omega
      · rwa [if_neg hc] at hb0
    have hq : queueOf s = [] :=
      List.length_eq_zero.mp (by rw [queueOf_length, hsz0])
    have hr0 : s.read n = (s, []) := by
      unfold RB.StreamBuffer.read
      rw [hav]
      dsimp only
      rw [if_pos hb0]
    rw [hr0]
    refine ⟨?_, ⟨hv, hcap, hsz, hrp, hwp⟩, rfl, ?_, rfl, ?_⟩
    · rw [hq]; simp
    · rw [hb0]; simp
    · rw [hq]; simp
  · have hcnd : 0 < (if 0 < n ∧ n ≤ s.buffer.size then n else s.buffer.size)
        ∧ (if 0 < n ∧ n ≤ s.buffer.size then n else s.buffer.size)
            ≤ s.buffer.size := by
      by_cases hc : 0 < n ∧ n ≤ s.buffer.size
      · rw [if_pos hc] at hb0 ⊢; omega
      · rw [if_neg hc] at hb0 ⊢; omega
    have hr : s.read n = s.rawRead
        (if 0 < n ∧ n ≤ s.buffer.size then n else s.buffer.size) := by
      unfold RB.StreamBuffer.read
      rw [hav]
      dsimp only
      rw [if_neg hb0]
    rw [hr]
    exact rawRead_spec s _ ⟨hv, hcap, hsz, hrp, hwp⟩ hcnd.1 hcnd.2

/-- `initialize` establishes well-formedness (the capacity falls back to
`default_capacity` when zero) and an empty queue. -/
theorem initBuffer_spec (s : RB.StreamBuffer) (cap : Nat)
    (h : 0 < cap ∨ 0 < s.default_capacity) :
    CWf (s.initBuffer cap) ∧ queueOf (s.initBuffer cap) = [] := by
  unfold RB.StreamBuffer.initBuffer
  dsimp only
  refine ⟨⟨rfl, ?_, ?_, ?_, ?_⟩, rfl⟩
  · dsimp only
    split <;> omega
  · dsimp only
    omega
  · dsimp only
    split <;> omega
  · dsimp only
    simp

/-- `peek` never changes the buffer state. -/
theorem peek_fst (s : RB.StreamBuffer) (n : Nat) : (s.peek n).1 = s := by
  unfold RB.StreamBuffer.peek
  dsimp only
  split <;> split <;> rfl

/-- `t % c = t` or `t + c` for `-c < t < c`. -/
theorem int_two_emod (t c : Int) (h1 : -c < t) (h2 : t < c) :
    t % c = if 0 ≤ t then t else t + c := by
  split
  · exact Int.emod_eq_of_lt (by assumption) h2
  · have hx : (t + c) % c = t % c := by
      have h3 := Int.add_mul_emod_self_left (a := t) (b := c) (c := 1)
      rw [mul_one] at h3
      exact h3
    rw [← hx]
    exact Int.emod_eq_of_lt (by omega) (by omega)

/-- The claim's literal state invariant: positions within the capacity,
size within the capacity, `(write_pos - read_pos) mod capacity = size`
when the buffer is not full, and `write_pos = read_pos` when it is full.
(`0 ≤ read_pos` and `0 ≤ write_pos` hold trivially for naturals.) -/
def ClaimInv (s : RB.StreamBuffer) : Prop :=
  s.buffer.read_pos < s.buffer.capacity
  ∧ s.buffer.write_pos < s.buffer.capacity
  ∧ s.buffer.size ≤ s.buffer.capacity
  ∧ (s.buffer.size < s.buffer.capacity →
      ((s.buffer.write_pos : Int) - (s.buffer.read_pos : Int))
          % (s.buffer.capacity : Int) = (s.buffer.size : Int))
  ∧ (s.buffer.size = s.buffer.capacity →
      s.buffer.write_pos = s.buffer.read_pos)

instance (s : RB.StreamBuffer) : Decidable (ClaimInv s) :=
  inferInstanceAs (Decidable (s.buffer.read_pos < s.buffer.capacity
    ∧ s.buffer.write_pos < s.buffer.capacity
    ∧ s.buffer.size ≤ s.buffer.capacity
    ∧ (s.buffer.size < s.buffer.capacity →
        ((s.buffer.write_pos : Int) - (s.buffer.read_pos : Int))
            % (s.buffer.capacity : Int) = (s.buffer.size : Int))
    ∧ (s.buffer.size = s.buffer.capacity →
        s.buffer.write_pos = s.buffer.read_pos)))

/-- The claim's invariant says exactly: read position in range, size
within capacity, and the write position determined by read position and
size (the natural-number form used by the operation specifications). -/
theorem claimInv_iff (s : RB.StreamBuffer) :
    ClaimInv s ↔ (s.buffer.read_pos < s.buffer.capacity
      ∧ s.buffer.size ≤ s.buffer.capacity
      ∧ s.buffer.write_pos
          = (s.buffer.read_pos + s.buffer.size) % s.buffer.capacity) := by
  obtain ⟨⟨dataF, dv, cap, sz, rp, wp, isf⟩, dc⟩ := s
  unfold ClaimInv
  dsimp only
  constructor
  · rintro ⟨h1, h2, h3, h4, h5⟩
    refine ⟨h1, h3, ?_⟩
    rcases Nat.lt_or_ge sz cap with hslt | hsge
    · have h4' := h4 hslt
      rw [int_two_emod _ _ (by omega) (by omega)] at h4'
      rw [two_mod _ _ (by omega)]
      split at h4' <;> split <;> omega
    · have hfull : sz = cap := by omega
      rw [h5 hfull, hfull, Nat.add_mod_right, Nat.mod_eq_of_lt h1]
  · rintro ⟨h1, h2, h3⟩
    have hcap : 0 < cap := by omega
    have hwlt : wp < cap := by rw [h3]; exact Nat.mod_lt _ hcap
    have hd : wp = rp + sz ∨ wp + cap = rp + sz := by
      rw [h3, two_mod _ _ (by omega)]
      split <;> omega
    refine ⟨h1, hwlt, h2, ?_, ?_⟩
    · intro hslt
      rw [int_two_emod _ _ (by omega) (by omega)]
      split <;> omega
    · intro hfull
      rcases hd with h | h <;> omega

/-- Claim C6: every `StreamBuffer` operation — `initialize`, `write`,
`read`, `peek`, `clear` — preserves the claim's state invariant
(`initialize` establishes it from any state, given that the requested or
default capacity is positive, which `__cinit__`'s default of 8192
guarantees). -/
theorem claim_C6 :
    (∀ (s : RB.StreamBuffer) (cap : Nat),
        0 < cap ∨ 0 < s.default_capacity → ClaimInv (s.initBuffer cap))
    ∧ (∀ (s : RB.StreamBuffer) (d : Bytes),
        ClaimInv s → ClaimInv (s.write d).1)
    ∧ (∀ (s : RB.StreamBuffer) (n : Nat),
        ClaimInv s → ClaimInv (s.read n).1)
    ∧ (∀ (s : RB.StreamBuffer) (n : Nat),
        ClaimInv s → ClaimInv (s.peek n).1)
    ∧ (∀ (s : RB.StreamBuffer), ClaimInv s → ClaimInv s.clearB) := by
  refine ⟨?_, ?_, ?_, ?_, ?_⟩
  · intro s cap h
    rw [claimInv_iff]
    have h1 := (initBuffer_spec s cap h).1
    exact ⟨h1.2.2.2.1, h1.2.2.1, h1.2.2.2.2⟩
  · intro s d h
    rw [claimInv_iff] at h ⊢
    by_cases hv : s.buffer.dataValid = true
    · have hw := (write_spec s d ⟨hv, by omega, h.2.1, h.1, h.2.2⟩).2.1
      exact ⟨hw.2.2.2.1, hw.2.2.1, hw.2.2.2.2⟩
    · simp only [Bool.not_eq_true] at hv
      have hweq : s.write d = (s, 0) := by
        unfold RB.StreamBuffer.write
        rw [if_pos (Or.inl hv)]
      rw [hweq]
      exact h
  · intro s n h
    rw [claimInv_iff] at h ⊢
    by_cases hv : s.buffer.dataValid = true
    · have hr := (read_spec s n ⟨hv, by omega, h.2.1, h.1, h.2.2⟩).2.1
      exact ⟨hr.2.2.2.1, hr.2.2.1, hr.2.2.2.2⟩
    · simp only [Bool.not_eq_true] at hv
      have hag : s.get_available_data = 0 := by
        simp [RB.StreamBuffer.get_available_data, hv]
      have hreq : s.read n = (s, []) := by
        unfold RB.StreamBuffer.read
        rw [hag]
        dsimp only
        rw [if_pos (by split <;> omega)]
      rw [hreq]
      exact h
  · intro s n h
    rw [peek_fst]
    exact h
  · intro s h
    rw [claimInv_iff] at h ⊢
    unfold RB.StreamBuffer.clearB
    dsimp only
    refine ⟨by omega, by omega, by simp⟩

/-- Witness for C6: the invariant holds after initialising a 4-byte buffer
and writing two bytes into it. -/
theorem claim_C6_witness :
    ClaimInv ((RB.StreamBuffer.cinit.initBuffer 4).write [1, 2]).1 :=
  claim_C6.2.1 (RB.StreamBuffer.cinit.initBuffer 4) [1, 2] (by decide)

/-- One operation of a streaming trace on the circular buffer. -/
inductive BufOp where
  | wr : Bytes → BufOp
  | rd : Nat → BufOp

/-- Run a trace of operations; returns the final buffer, the list of
accepted write pieces (each write's `d[0:bytes_written]`) and the list of
read results, in order. -/
def runOps : RB.StreamBuffer → List BufOp → RB.StreamBuffer × List Bytes × List Bytes
  | s, [] => (s, [], [])
  | s, BufOp.wr d :: rest =>
    let w := s.write d
    let r := runOps w.1 rest
    (r.1, d.take w.2 :: r.2.1, r.2.2)
  | s, BufOp.rd n :: rest =>
    let rd := s.read n
    let r := runOps rd.1 rest
    (r.1, r.2.1, rd.2 :: r.2.2)

/-- Trace invariant: after any run from a well-formed buffer, the final
buffer is well-formed and `read results ++ pending queue = starting queue
++ accepted writes` (all flattened, in order). -/
theorem runOps_spec (ops : List BufOp) :
    ∀ (s : RB.StreamBuffer), CWf s →
      CWf (runOps s ops).1
      ∧ (runOps s ops).2.2.flatten ++ queueOf (runOps s ops).1
          = queueOf s ++ (runOps s ops).2.1.flatten := by
  induction ops with
  | nil =>
    intro s h
    exact ⟨h, by simp [runOps]⟩
  | cons op rest ih =>
    intro s h
    match op with
    | BufOp.wr d =>
      have hw := write_spec s d h
      have hr := ih (s.write d).1 hw.2.1
      simp only [runOps]
      refine ⟨hr.1, ?_⟩
      rw [List.flatten_cons, hr.2, hw.2.2.2.2.2.2, List.append_assoc]
    | BufOp.rd n =>
      have hrd := read_spec s n h
      have hr := ih (s.read n).1 hrd.2.1
      simp only [runOps]
      refine ⟨hr.1, ?_⟩
      rw [List.flatten_cons, hrd.1, List.append_assoc, hr.2,
        hrd.2.2.2.2.2, ← List.append_assoc, List.take_append_drop]

/-- A trace run from a freshly initialised buffer (capacity `cap`; zero
falls back to the 8 KB default). -/
def c5run (cap : Nat) (ops : List BufOp) :
    RB.StreamBuffer × List Bytes × List Bytes :=
  runOps (RB.StreamBuffer.cinit.initBuffer cap) ops

/-- Claim C5: over every sequence of writes and reads after `initialize`,
the concatenated read results form exactly the prefix (of the concatenated
accepted write bytes) of their total length — reads return the written
bytes in FIFO order and never see overwritten data; `available_data()`
equals total accepted bytes minus total read bytes; a write larger than
`available_space()` accepts exactly `available_space()` bytes; and a read
on an empty buffer returns the empty byte string. -/
theorem claim_C5 (cap : Nat) (ops : List BufOp) :
    (c5run cap ops).2.2.flatten
      = (c5run cap ops).2.1.flatten.take (c5run cap ops).2.2.flatten.length
    ∧ RB.StreamBuffer.get_available_data (c5run cap ops).1
        = (c5run cap ops).2.1.flatten.length
          - (c5run cap ops).2.2.flatten.length
    ∧ (∀ d : Bytes,
        RB.StreamBuffer.get_available_space (c5run cap ops).1 < d.length →
        ((c5run cap ops).1.write d).2
          = RB.StreamBuffer.get_available_space (c5run cap ops).1)
    ∧ (RB.StreamBuffer.get_available_data (c5run cap ops).1 = 0 →
        ∀ n, ((c5run cap ops).1.read n).2 = []) := by
  have hinit := initBuffer_spec RB.StreamBuffer.cinit cap (Or.inr (by decide))
  have hrs := runOps_spec ops _ hinit.1
  obtain ⟨hwf, heq⟩ := hrs
  rw [hinit.2, List.nil_append] at heq
  have hv := hwf.1
  refine ⟨?_, ?_, ?_, ?_⟩
  · unfold c5run
    rw [← heq, List.take_left]
  · have hlen := congrArg List.length heq
    simp only [List.length_append, queueOf_length] at hlen
    unfold c5run
    simp only [RB.StreamBuffer.get_available_data, hv]
    simp only [Bool.true_eq_false, if_false]
    omega
  · intro d hd
    unfold c5run at hd ⊢
    have hw := write_spec _ d hwf
    rw [hw.1]
    simp only [RB.StreamBuffer.get_available_space, hv,
      Bool.true_eq_false, if_false] at hd ⊢
    omega
  · intro h0 n
    unfold c5run at h0 ⊢
    simp only [RB.StreamBuffer.get_available_data, hv,
      Bool.true_eq_false, if_false] at h0
    have hrd := read_spec _ n hwf
    rw [hrd.1]
    have hq : queueOf (runOps (RB.StreamBuffer.cinit.initBuffer cap) ops).1
        = [] := List.length_eq_zero.mp (by rw [queueOf_length, h0])
    rw [hq, List.take_nil]

/-- Witness for C5: after initialising a 4-byte buffer and writing three
bytes, a 5-byte write accepts exactly the single byte of remaining
space. -/
theorem claim_C5_witness :
    ((c5run 4 [BufOp.wr [1, 2, 3]]).1.write [9, 9, 9, 9, 9]).2
        = RB.StreamBuffer.get_available_space (c5run 4 [BufOp.wr [1, 2, 3]]).1
    ∧ RB.StreamBuffer.get_available_space (c5run 4 [BufOp.wr [1, 2, 3]]).1
        = 1 :=
  ⟨(claim_C5 4 [BufOp.wr [1, 2, 3]]).2.2.1 [9, 9, 9, 9, 9] (by decide),
   by decide⟩

end ACCR
